import Mathlib

/-
  Verification development for the UE4VoxelTerrain repository
  (Source/VoxelTerrain/Private/VoxelTerrainActor.cpp).

  The development shallowly embeds the two algorithmic parts of the file:

  * `VoxelTerrainPager::pageIn` / `pageOut` (lines 113-217): the chunk
    generation loop.  The ANL noise kernel built at the top of `pageIn`
    (`PerturbGradient`, `GrassZ`, `OreFractal`) lives in the external ANL
    library, so the three evaluated scalar fields are abstract parameters
    (a `FieldSet`); real-valued noise samples are modelled as rationals.

  * the material partition loop of `AVoxelTerrainActor::BeginPlay`
    (lines 51-101): splitting the decoded PolyVox mesh into one
    vertex/index/normal/tangent buffer set per material.  The engine
    routine `FVector::GetSafeNormal` is likewise an abstract parameter.

  Machine integers: the partition loop counter and `getNoOfIndices()` are
  C++ `uint32`, so the loop bound `getNoOfIndices() - 2` is modelled with
  an explicit `% 2 ^ 32`.  The C++ `int` division in `region.getUpperY() / 2`
  truncates toward zero, modelled by `Int.tdiv`.
-/

/-- A voxel as produced by `pageIn`: the density and material values passed to
`MaterialDensityPair44::setDensity` / `setMaterial` (the repository code treats
both as plain small integers). -/
structure Voxel where
  density : ℕ
  material : ℕ
deriving DecidableEq, Repr

/-- A `PolyVox::Region`: an inclusive axis-aligned box of global voxel
coordinates, accessed in the source through `getLowerX()` ... `getUpperZ()`. -/
structure Region where
  lowerX : ℤ
  lowerY : ℤ
  lowerZ : ℤ
  upperX : ℤ
  upperY : ℤ
  upperZ : ℤ

/-- A global or chunk-local integer coordinate triple. -/
abbrev Coord := ℤ × ℤ × ℤ

/-- Chunk voxel storage: `none` marks a slot `Chunk::setVoxel` has not written. -/
abbrev Chunk := Coord → Option Voxel

/-- A chunk in which no voxel has been written yet. -/
def chunkEmpty : Chunk := fun _ => none

/-- `Chunk::setVoxel`: store `v` at chunk-local coordinate `p`. -/
def setVoxel (c : Chunk) (p : Coord) (v : Voxel) : Chunk :=
  fun q => if q = p then some v else c q

/-- A scalar field, standing for `CNoiseExecutor::evaluateScalar` applied to one
fixed kernel node: coordinates in, a real (modelled rational) sample out. -/
abbrev ScalarField := ℤ → ℤ → ℤ → ℚ

/-- The three noise fields `pageIn` evaluates (lines 163, 176, 192).  The ANL
kernel that builds them from the `TerrainParameters` is an external library,
deterministic per parameters, so the built fields are taken as inputs. -/
structure FieldSet where
  perturbGradient : ScalarField
  grassZ : ScalarField
  oreFractal : ScalarField

/-- The voxel the body of the `pageIn` triple loop constructs at global
coordinate `(x, y, z)` (source lines 162-203).  `mkRat 1 2` and `mkRat 39 20`
are the C++ literals `0.5` and `1.95`; `Int.floor` is `FMath::FloorToInt`. -/
def genVoxel (f : FieldSet) (x y z : ℤ) : Voxel :=
  let evaluatedNoise := f.perturbGradient x y z
  let bSolid := evaluatedNoise > mkRat 1 2
  let density : ℕ := if bSolid then 255 else 0
  let actualGrassZ : ℤ := ⌊f.grassZ x y z⌋
  let dirtZ : ℤ := actualGrassZ - 1
  let dirtThickness : ℤ := 3
  let material : ℕ :=
    if bSolid then
      if z ≥ actualGrassZ then 3
      else if z ≤ dirtZ ∧ z > dirtZ - dirtThickness then 2
      else if f.oreFractal x y z > mkRat 39 20 then 4
      else 1
    else 0
  { density := density, material := material }

/-- The inclusive integer range `[lo, hi]` walked by each `for` loop
(`for (c = lo; c <= hi; c++)`); empty when `lo > hi`. -/
def intRange (lo hi : ℤ) : List ℤ :=
  (List.range (hi + 1 - lo).toNat).map (fun k => lo + (k : ℤ))

/-- The global coordinates visited by the `pageIn` triple loop (source lines
156-160), in visit order.  The y loop runs only to `region.getUpperY() / 2`
(C++ `int` division, truncation toward zero, hence `Int.tdiv`). -/
def coordList (r : Region) : List Coord :=
  (intRange r.lowerX r.upperX).flatMap fun x =>
    (intRange r.lowerY (Int.tdiv r.upperY 2)).flatMap fun y =>
      (intRange r.lowerZ r.upperZ).map fun z => (x, y, z)

/-- Chunk-local coordinate of a global coordinate: `global − region.min`
(source line 208). -/
def regionLoc (r : Region) (p : Coord) : Coord :=
  (p.1 - r.lowerX, p.2.1 - r.lowerY, p.2.2 - r.lowerZ)

/-- `VoxelTerrainPager::pageIn` (source lines 113-212): for each coordinate the
triple loop visits, evaluate the fields, build the voxel, and store it at the
chunk-local coordinate. -/
def pageIn (f : FieldSet) (r : Region) (c : Chunk) : Chunk :=
  (coordList r).foldl
    (fun ch p => setVoxel ch (regionLoc r p) (genVoxel f p.1 p.2.1 p.2.2)) c

/-- `VoxelTerrainPager::pageOut` (source lines 215-217): the body is empty, the
chunk is returned untouched and nothing is persisted. -/
def pageOut (_ : Region) (c : Chunk) : Chunk := c

/-- A concrete field set (constant fields) used to evaluate the embedding at
concrete inputs: solidity sample 1 everywhere, grass line 0, ore sample 0. -/
def constFields : FieldSet :=
  { perturbGradient := fun _ _ _ => 1
    grassZ := fun _ _ _ => 0
    oreFractal := fun _ _ _ => 0 }

/-- The region `(0,0,0) - (1,1,1)` used as a concrete `pageIn` input. -/
def regionCube2 : Region := { lowerX := 0, lowerY := 0, lowerZ := 0,
                              upperX := 1, upperY := 1, upperZ := 1 }

/-- The single-cell region `(0,0,0) - (0,0,0)`. -/
def regionCell : Region := { lowerX := 0, lowerY := 0, lowerZ := 0,
                             upperX := 0, upperY := 0, upperZ := 0 }

/- ------------------------------------------------------------------ -/
/- Helper lemmas about the paging embedding.                           -/
/- ------------------------------------------------------------------ -/

lemma regionLoc_add (r : Region) (q : Coord) :
    regionLoc r (q.1 + r.lowerX, q.2.1 + r.lowerY, q.2.2 + r.lowerZ) = q := by
  obtain ⟨a, b, c⟩ := q
  simp [regionLoc]

lemma regionLoc_eq_iff (r : Region) (p q : Coord) :
    q = regionLoc r p ↔ (q.1 + r.lowerX, q.2.1 + r.lowerY, q.2.2 + r.lowerZ) = p := by
  obtain ⟨a, b, c⟩ := q
  obtain ⟨u, v, w⟩ := p
  simp only [regionLoc, Prod.mk.injEq]
  omega

lemma pageIn_foldl_apply (f : FieldSet) (r : Region) :
    ∀ (l : List Coord) (c : Chunk) (q : Coord),
      (l.foldl (fun ch p => setVoxel ch (regionLoc r p) (genVoxel f p.1 p.2.1 p.2.2)) c) q
        = if (q.1 + r.lowerX, q.2.1 + r.lowerY, q.2.2 + r.lowerZ) ∈ l
          then some (genVoxel f (q.1 + r.lowerX) (q.2.1 + r.lowerY) (q.2.2 + r.lowerZ))
          else c q := by
  intro l
  induction l with
  | nil => intro c q; simp
  | cons p l ih =>
    intro c q
    rw [List.foldl_cons, ih]
    by_cases hm : (q.1 + r.lowerX, q.2.1 + r.lowerY, q.2.2 + r.lowerZ) ∈ l
    · simp [hm]
    · by_cases he : (q.1 + r.lowerX, q.2.1 + r.lowerY, q.2.2 + r.lowerZ) = p
      · subst he
        simp [hm, setVoxel, regionLoc_add]
      · have hq : ¬ q = regionLoc r p := by
          rw [regionLoc_eq_iff]; exact he
        simp [hm, he, setVoxel, hq]

/-- Pointwise description of `pageIn`: a chunk-local slot holds the generated
voxel of its global coordinate when the loop visits that coordinate, and is
left at its previous content otherwise. -/
lemma pageIn_apply (f : FieldSet) (r : Region) (c : Chunk) (q : Coord) :
    pageIn f r c q
      = if (q.1 + r.lowerX, q.2.1 + r.lowerY, q.2.2 + r.lowerZ) ∈ coordList r
        then some (genVoxel f (q.1 + r.lowerX) (q.2.1 + r.lowerY) (q.2.2 + r.lowerZ))
        else c q :=
  pageIn_foldl_apply f r (coordList r) c q

lemma genVoxel_density (f : FieldSet) (x y z : ℤ) :
    (genVoxel f x y z).density = if f.perturbGradient x y z > mkRat 1 2 then 255 else 0 := rfl

lemma genVoxel_material_air (f : FieldSet) (x y z : ℤ)
    (h : ¬ f.perturbGradient x y z > mkRat 1 2) :
    genVoxel f x y z = { density := 0, material := 0 } := by
  simp only [genVoxel, h]
  simp

lemma genVoxel_invariant (f : FieldSet) (x y z : ℤ) :
    ((genVoxel f x y z).density = 0 ↔ (genVoxel f x y z).material = 0) ∧
      ((genVoxel f x y z).density = 0 ∨ (genVoxel f x y z).density = 255) := by
  simp only [genVoxel]
  by_cases hs : f.perturbGradient x y z > mkRat 1 2
  · simp only [hs, if_true]
    refine ⟨?_, by simp⟩
    constructor
    · intro h; exact absurd h (by norm_num)
    · intro h
      by_cases h1 : z ≥ ⌊f.grassZ x y z⌋ <;>
        by_cases h2 : z ≤ ⌊f.grassZ x y z⌋ - 1 ∧ z > ⌊f.grassZ x y z⌋ - 1 - 3 <;>
          by_cases h3 : f.oreFractal x y z > mkRat 39 20 <;>
            simp [h1, h2, h3] at h
  · simp [hs]

/- ------------------------------------------------------------------ -/
/- Claim theorems: paging (C1, C2, C5, C6, C9).                        -/
/- ------------------------------------------------------------------ -/

/-- C1: the claim demands that every global coordinate of the full inclusive
region box is written.  The code instead runs the y loop only while
`y <= region.getUpperY() / 2` (source line 158), so for the region
`(0,0,0)-(1,1,1)` the in-box coordinate `(0,1,0)` (chunk-local `(0,1,0)`)
is never written: its chunk slot is still empty after `pageIn`. -/
theorem pageIn_truncates_y_axis :
    (regionCube2.lowerY ≤ 1 ∧ (1 : ℤ) ≤ regionCube2.upperY) ∧
      pageIn constFields regionCube2 chunkEmpty (0, 1, 0) = none :=
  ⟨by decide, by decide⟩

/-- C2: for every voxel the `pageIn` loop body builds, a solidity sample above
`0.5` gives a solid voxel whose material follows the exact precedence
Grass (3) / Dirt (2) / Ore (4) / Stone (1), and a sample at most `0.5` gives
Air (0) regardless of the other fields (source lines 162-203). -/
theorem material_precedence (f : FieldSet) (x y z : ℤ) :
    (f.perturbGradient x y z > mkRat 1 2 →
      (genVoxel f x y z).density = 255 ∧
      (z ≥ ⌊f.grassZ x y z⌋ → (genVoxel f x y z).material = 3) ∧
      (¬ z ≥ ⌊f.grassZ x y z⌋ →
        z ≤ ⌊f.grassZ x y z⌋ - 1 ∧ z > ⌊f.grassZ x y z⌋ - 1 - 3 →
        (genVoxel f x y z).material = 2) ∧
      (¬ z ≥ ⌊f.grassZ x y z⌋ →
        ¬ (z ≤ ⌊f.grassZ x y z⌋ - 1 ∧ z > ⌊f.grassZ x y z⌋ - 1 - 3) →
        ((f.oreFractal x y z > mkRat 39 20 → (genVoxel f x y z).material = 4) ∧
         (¬ f.oreFractal x y z > mkRat 39 20 → (genVoxel f x y z).material = 1)))) ∧
    (f.perturbGradient x y z ≤ mkRat 1 2 → (genVoxel f x y z).material = 0) := by
  constructor
  · intro hs
    refine ⟨by simp [genVoxel, hs], ?_, ?_, ?_⟩
    · intro h1; simp [genVoxel, hs, h1]
    · intro h1 h2; simp [genVoxel, hs, h1, h2]
    · intro h1 h2
      constructor
      · intro h3; simp [genVoxel, hs, h1, h2, h3]
      · intro h3; simp [genVoxel, hs, h1, h2, h3]
  · intro hns
    have h : ¬ f.perturbGradient x y z > mkRat 1 2 := not_lt.mpr hns
    rw [genVoxel_material_air f x y z h]

theorem material_precedence_witness :
    (genVoxel constFields 0 0 0).material = 3 :=
  ((material_precedence constFields 0 0 0).1 (by decide)).2.1 (by decide)

/-- C5: `pageIn` is idempotent; re-running it for the same region with the same
field set (hence the same `TerrainParameters`, since the ANL kernel is a pure
function of them) reproduces the identical chunk contents.  The embedding is a
pure function of its inputs, reflecting that `pageIn` builds a fresh local
kernel per call and shares no mutable state between calls. -/
theorem pageIn_idempotent (f : FieldSet) (r : Region) (c : Chunk) :
    pageIn f r (pageIn f r c) = pageIn f r c := by
  funext q
  by_cases h : (q.1 + r.lowerX, q.2.1 + r.lowerY, q.2.2 + r.lowerZ) ∈ coordList r
  · simp [pageIn_apply, h]
  · simp [pageIn_apply, h]

/-- C6: every voxel `pageIn` writes satisfies `density = 0 ↔ material = Air`,
density is binary (0 or 255), a non-solid sample yields density 0 with Air,
and a solid sample yields density 255 with a non-Air material. -/
theorem voxel_density_material_invariant (f : FieldSet) :
    (∀ (r : Region) (q : Coord) (v : Voxel),
        pageIn f r chunkEmpty q = some v →
          ((v.density = 0 ↔ v.material = 0) ∧ (v.density = 0 ∨ v.density = 255))) ∧
    (∀ x y z : ℤ,
        (f.perturbGradient x y z ≤ mkRat 1 2 →
          genVoxel f x y z = { density := 0, material := 0 }) ∧
        (f.perturbGradient x y z > mkRat 1 2 →
          (genVoxel f x y z).density = 255 ∧ (genVoxel f x y z).material ≠ 0)) := by
  constructor
  · intro r q v h
    rw [pageIn_apply] at h
    by_cases hm : (q.1 + r.lowerX, q.2.1 + r.lowerY, q.2.2 + r.lowerZ) ∈ coordList r
    · rw [if_pos hm] at h
      obtain rfl : genVoxel f (q.1 + r.lowerX) (q.2.1 + r.lowerY) (q.2.2 + r.lowerZ) = v :=
        Option.some.inj h
      exact genVoxel_invariant f _ _ _
    · rw [if_neg hm] at h
      simp [chunkEmpty] at h
  · intro x y z
    constructor
    · intro h
      exact genVoxel_material_air f x y z (not_lt.mpr h)
    · intro h
      refine ⟨by simp [genVoxel_density, h], ?_⟩
      intro hm0
      have hd : (genVoxel f x y z).density = 0 := (genVoxel_invariant f x y z).1.mpr hm0
      rw [genVoxel_density] at hd
      simp [h] at hd

theorem voxel_density_material_invariant_witness :
    ((({ density := 255, material := 3 } : Voxel).density = 0 ↔
        ({ density := 255, material := 3 } : Voxel).material = 0) ∧
      (({ density := 255, material := 3 } : Voxel).density = 0 ∨
        ({ density := 255, material := 3 } : Voxel).density = 255)) :=
  (voxel_density_material_invariant constFields).1 regionCell (0, 0, 0)
    { density := 255, material := 3 } (by decide)

/-- C9: `pageOut` performs no action; the evicted chunk is returned untouched
and nothing is persisted (source lines 215-217 have an empty body). -/
theorem pageOut_discards_chunk (r : Region) (c : Chunk) : pageOut r c = c := rfl

/- ------------------------------------------------------------------ -/
/- Mesh partition embedding (`AVoxelTerrainActor::BeginPlay`, 51-101). -/
/- ------------------------------------------------------------------ -/

/-- A 3-component vector with real (modelled rational) components. -/
abbrev V3 := ℚ × ℚ × ℚ

/-- Componentwise vector subtraction (`FVector operator-`). -/
def vsub (a b : V3) : V3 := (a.1 - b.1, a.2.1 - b.2.1, a.2.2 - b.2.2)

/-- Scalar multiplication (`FVector operator*`), used for the `* 100.f`
world-scale factor on emitted positions. -/
def smul (c : ℚ) (a : V3) : V3 := (c * a.1, c * a.2.1, c * a.2.2)

/-- The cross product (`FVector operator^`, right-handed). -/
def cross (a b : V3) : V3 :=
  (a.2.1 * b.2.2 - a.2.2 * b.2.1,
   a.2.2 * b.1 - a.1 * b.2.2,
   a.1 * b.2.1 - a.2.1 * b.1)

/-- A decoded mesh vertex: a position plus the material tag the surface
extractor stored in the vertex data (`Vertex.data.getMaterial()`). -/
structure RVertex where
  position : V3
  material : ℕ
deriving DecidableEq

instance : Inhabited RVertex := ⟨{ position := (0, 0, 0), material := 0 }⟩

/-- The decoded PolyVox mesh: a vertex buffer and a flat index buffer read in
consecutive triples (one triangle per triple). -/
structure RawMesh where
  vertices : List RVertex
  indices : List ℕ
deriving DecidableEq

/-- One per-material mesh section accumulated by the partition loop: the
`Vertices`, `Indices`, `Normals` and `Tangents` arrays passed to
`CreateMeshSection` (the UV0 and Colors arrays stay empty and carry no
content worth modelling). -/
structure MeshSection where
  vertices : List V3
  indices : List ℕ
  normals : List V3
  tangents : List V3
deriving DecidableEq

/-- The empty accumulators declared before the index loop (source lines 54-59). -/
def emptySection : MeshSection :=
  { vertices := [], indices := [], normals := [], tangents := [] }

/-- The vertex fetched through index position `j`:
`DecodedMesh.getVertex(DecodedMesh.getIndex(j))`.  Out-of-range access is
undefined behaviour in the C++ source; the embedding totalises it with
defaults (and `accessesInRange` tracks where the source stays in range). -/
def vertAt (m : RawMesh) (j : ℕ) : RVertex :=
  m.vertices.getD (m.indices.getD j 0) default

/-- The material tag deciding triangle `i`: the tag of the third vertex of the
triple, `getVertex(getIndex(i + 2)).data.getMaterial()` (source lines 65-67). -/
def tagAt (m : RawMesh) (i : ℕ) : ℕ := (vertAt m (i + 2)).material

/-- `Indices.Add(Vertices.Add(p))`: `TArray::Add` appends and returns the new
element's index, so the appended index equals the vertex count before the
append (source lines 73, 77, 81). -/
def addVertexIndex (s : MeshSection) (p : V3) : MeshSection :=
  { s with vertices := s.vertices ++ [p], indices := s.indices ++ [s.vertices.length] }

/-- The body of the partition loop for one triangle at index position `i`
(source lines 62-95): read the third vertex's material tag; on a match with
`Material + 1`, append the three vertices in reverse triple order
(third, second, first) with their indices, then append one flat tangent
`sn(v1 - v0)` and one flat normal `sn((v1 - v0) x (v2 - v0))` three times.
`sn` stands for the external `FVector::GetSafeNormal`. -/
def stepTri (sn : V3 → V3) (m : RawMesh) (mat : ℕ) (s : MeshSection) (i : ℕ) : MeshSection :=
  let vertex2 := vertAt m (i + 2)
  let triangleMaterial := vertex2.material
  if triangleMaterial = mat + 1 then
    let s0 := addVertexIndex s (smul 100 vertex2.position)
    let vertex1 := vertAt m (i + 1)
    let s1 := addVertexIndex s0 (smul 100 vertex1.position)
    let vertex0 := vertAt m i
    let s2 := addVertexIndex s1 (smul 100 vertex0.position)
    let edge01 := vsub vertex1.position vertex0.position
    let edge02 := vsub vertex2.position vertex0.position
    let tangentX := sn edge01
    let tangentZ := sn (cross edge01 edge02)
    { s2 with
      tangents := s2.tangents ++ [tangentX, tangentX, tangentX],
      normals := s2.normals ++ [tangentZ, tangentZ, tangentZ] }
  else s

/-- The loop bound `DecodedMesh.getNoOfIndices() - 2` computed in `uint32`
arithmetic: for an index count `n < 2 ^ 32` this is the wrap-around value of
`n - 2` (source line 62). -/
def loopBound (n : ℕ) : ℕ := (n + (2 ^ 32 - 2)) % 2 ^ 32

/-- The partition loop `for (uint32 i = 0; i < getNoOfIndices() - 2; i += 3)`
from counter value `i` on, threading the accumulated section. -/
def sectionGo (sn : V3 → V3) (m : RawMesh) (mat : ℕ) (i : ℕ) (s : MeshSection) : MeshSection :=
  if h : i < loopBound m.indices.length then
    sectionGo sn m mat (i + 3) (stepTri sn m mat s i)
  else s
termination_by loopBound m.indices.length - i
decreasing_by omega

/-- The whole partition loop for material index `mat` (matching tag `mat + 1`),
starting from the empty accumulators. -/
def sectionLoop (sn : V3 → V3) (m : RawMesh) (mat : ℕ) : MeshSection :=
  sectionGo sn m mat 0 emptySection

/-- The loop body always reads index position `i + 2`; this predicate says
every visited counter value (a multiple of 3 below the `uint32` loop bound)
keeps that read inside the index buffer. -/
def accessesInRange (m : RawMesh) : Prop :=
  ∀ i : ℕ, i % 3 = 0 → i < loopBound m.indices.length → i + 2 < m.indices.length

/-- Counter values of the triangles a full run over a `3 * T`-index buffer
visits, from the `k`-th triangle on: `3k, 3(k+1), ..., 3(T-1)`. -/
def triIdxFrom (k T : ℕ) : List ℕ := (List.range (T - k)).map (fun j => 3 * (k + j))

/-- Counter values of all `T` triangles: `0, 3, ..., 3(T-1)`. -/
def triIdx (T : ℕ) : List ℕ := (List.range T).map (fun k => 3 * k)

/-- Counter values of the triangles whose deciding tag matches material index
`mat` (tag `mat + 1`), in raw-mesh order. -/
def matchedTris (m : RawMesh) (mat T : ℕ) : List ℕ :=
  (triIdx T).filter (fun i => tagAt m i = mat + 1)

/-- The three positions the loop emits for a matched triangle at counter `i`:
third, second and first vertex of the raw triple, scaled by 100. -/
def triVerts (m : RawMesh) (i : ℕ) : List V3 :=
  [smul 100 (vertAt m (i + 2)).position,
   smul 100 (vertAt m (i + 1)).position,
   smul 100 (vertAt m i).position]

/-- The flat tangent of the triangle at counter `i`: `sn(v1 - v0)`. -/
def triTangentX (sn : V3 → V3) (m : RawMesh) (i : ℕ) : V3 :=
  sn (vsub (vertAt m (i + 1)).position (vertAt m i).position)

/-- The flat normal of the triangle at counter `i`:
`sn((v1 - v0) x (v2 - v0))`. -/
def triTangentZ (sn : V3 → V3) (m : RawMesh) (i : ℕ) : V3 :=
  sn (cross (vsub (vertAt m (i + 1)).position (vertAt m i).position)
            (vsub (vertAt m (i + 2)).position (vertAt m i).position))

/-- A concrete one-triangle mesh (all three vertices tagged with material 1)
used to evaluate the partition embedding at a concrete input. -/
def meshTriangle : RawMesh :=
  { vertices := [{ position := (0, 0, 0), material := 1 },
                 { position := (1, 0, 0), material := 1 },
                 { position := (0, 1, 0), material := 1 }],
    indices := [0, 1, 2] }

/- ------------------------------------------------------------------ -/
/- Helper lemmas about the partition embedding.                        -/
/- ------------------------------------------------------------------ -/

lemma stepTri_match (sn : V3 → V3) (m : RawMesh) (mat : ℕ) (s : MeshSection) (i : ℕ)
    (hm : tagAt m i = mat + 1) :
    stepTri sn m mat s i =
      { vertices := s.vertices ++ triVerts m i,
        indices := s.indices ++
          [s.vertices.length, s.vertices.length + 1, s.vertices.length + 2],
        normals := s.normals ++ [triTangentZ sn m i, triTangentZ sn m i, triTangentZ sn m i],
        tangents := s.tangents ++ [triTangentX sn m i, triTangentX sn m i, triTangentX sn m i] } := by
  have hm2 : (vertAt m (i + 2)).material = mat + 1 := hm
  simp [stepTri, hm2, addVertexIndex, triVerts, triTangentX, triTangentZ, List.append_assoc]

lemma stepTri_nomatch (sn : V3 → V3) (m : RawMesh) (mat : ℕ) (s : MeshSection) (i : ℕ)
    (hm : ¬ tagAt m i = mat + 1) :
    stepTri sn m mat s i = s := by
  have hm2 : ¬ (vertAt m (i + 2)).material = mat + 1 := hm
  simp [stepTri, hm2]

lemma range'_three_split (v n : ℕ) :
    List.range' v (3 * n + 3) = v :: (v + 1) :: (v + 2) :: List.range' (v + 3) (3 * n) := by
  have h1 : 3 * n + 3 = (3 * n + 2) + 1 := by omega
  rw [h1, List.range'_succ]
  have h2 : 3 * n + 2 = (3 * n + 1) + 1 := by omega
  rw [h2, List.range'_succ]
  have h3 : 3 * n + 1 = (3 * n) + 1 := by omega
  rw [h3, List.range'_succ]

lemma foldl_stepTri (sn : V3 → V3) (m : RawMesh) (mat : ℕ) :
    ∀ (L : List ℕ) (s : MeshSection),
      L.foldl (stepTri sn m mat) s =
        { vertices := s.vertices ++
            (L.filter (fun i => tagAt m i = mat + 1)).flatMap (triVerts m),
          indices := s.indices ++ List.range' s.vertices.length
            (3 * (L.filter (fun i => tagAt m i = mat + 1)).length),
          normals := s.normals ++ (L.filter (fun i => tagAt m i = mat + 1)).flatMap
            (fun i => [triTangentZ sn m i, triTangentZ sn m i, triTangentZ sn m i]),
          tangents := s.tangents ++ (L.filter (fun i => tagAt m i = mat + 1)).flatMap
            (fun i => [triTangentX sn m i, triTangentX sn m i, triTangentX sn m i]) } := by
  intro L
  induction L with
  | nil => intro s; simp
  | cons a L ih =>
    intro s
    rw [List.foldl_cons, ih]
    by_cases hm : tagAt m a = mat + 1
    · rw [stepTri_match sn m mat s a hm]
      have hf : (a :: L).filter (fun i => tagAt m i = mat + 1)
          = a :: L.filter (fun i => tagAt m i = mat + 1) := by
        simp [List.filter_cons, hm]
      rw [hf]
      simp only [MeshSection.mk.injEq]
      refine ⟨?_, ?_, ?_, ?_⟩
      · simp [List.flatMap_cons, List.append_assoc]
      · have hv : (s.vertices ++ triVerts m a).length = s.vertices.length + 3 := by
          simp [triVerts]
        rw [hv, List.length_cons]
        have h33 : 3 * ((L.filter (fun i => tagAt m i = mat + 1)).length + 1)
            = 3 * (L.filter (fun i => tagAt m i = mat + 1)).length + 3 := by omega
        rw [h33, range'_three_split, List.append_assoc]
        rfl
      · simp [List.flatMap_cons, List.append_assoc]
      · simp [List.flatMap_cons, List.append_assoc]
    · rw [stepTri_nomatch sn m mat s a hm]
      have hf : (a :: L).filter (fun i => tagAt m i = mat + 1)
          = L.filter (fun i => tagAt m i = mat + 1) := by
        simp [List.filter_cons, hm]
      rw [hf]

lemma loopBound_eq (n T : ℕ) (h3 : n = 3 * T) (hT : 1 ≤ T) (hcap : n < 2 ^ 32) :
    loopBound n = 3 * T - 2 := by
  have h32 : (2 : ℕ) ^ 32 = 4294967296 := by norm_num
  simp only [loopBound, h32]
  omega

lemma triIdxFrom_cons (k T : ℕ) (hk : k < T) :
    triIdxFrom k T = 3 * k :: triIdxFrom (k + 1) T := by
  unfold triIdxFrom
  have hs : T - k = (T - (k + 1)) + 1 := by omega
  rw [hs, List.range_succ_eq_map, List.map_cons, List.map_map]
  have he : ((fun j => 3 * (k + j)) ∘ Nat.succ) = (fun j => 3 * (k + 1 + j)) := by
    funext j
    simp [Function.comp]
    omega
  rw [he]
  simp

lemma sectionGo_eq_foldl (sn : V3 → V3) (m : RawMesh) (mat T : ℕ)
    (hb : loopBound m.indices.length = 3 * T - 2) (hT : 1 ≤ T) :
    ∀ (n k : ℕ) (s : MeshSection), T - k = n →
      sectionGo sn m mat (3 * k) s = (triIdxFrom k T).foldl (stepTri sn m mat) s := by
  intro n
  induction n with
  | zero =>
    intro k s hk
    have hkT : T ≤ k := by omega
    rw [sectionGo]
    have hcond : ¬ 3 * k < loopBound m.indices.length := by
      rw [hb]; omega
    rw [dif_neg hcond]
    simp [triIdxFrom, Nat.sub_eq_zero_of_le hkT]
  | succ n ih =>
    intro k s hk
    have hkT : k < T := by omega
    rw [sectionGo]
    have hcond : 3 * k < loopBound m.indices.length := by
      rw [hb]; omega
    rw [dif_pos hcond]
    have h1 : 3 * k + 3 = 3 * (k + 1) := by omega
    rw [h1, ih (k + 1) (stepTri sn m mat s (3 * k)) (by omega)]
    rw [triIdxFrom_cons k T hkT, List.foldl_cons]

lemma triIdxFrom_zero (T : ℕ) : triIdxFrom 0 T = triIdx T := by
  unfold triIdxFrom triIdx
  simp

lemma sectionLoop_eq_foldl (sn : V3 → V3) (m : RawMesh) (mat T : ℕ)
    (h3 : m.indices.length = 3 * T) (hT : 1 ≤ T) (hcap : m.indices.length < 2 ^ 32) :
    sectionLoop sn m mat = (triIdx T).foldl (stepTri sn m mat) emptySection := by
  unfold sectionLoop
  have hb := loopBound_eq m.indices.length T h3 hT hcap
  have h := sectionGo_eq_foldl sn m mat T hb hT T 0 emptySection (by omega)
  rw [triIdxFrom_zero] at h
  simpa using h

/-- Closed form of one partition pass: the section for material index `mat`
consists exactly of the matched triangles in raw order, three freshly
numbered vertices per triangle, with the flat normal and tangent repeated
three times each. -/
lemma sectionLoop_spec (sn : V3 → V3) (m : RawMesh) (mat T : ℕ)
    (h3 : m.indices.length = 3 * T) (hT : 1 ≤ T) (hcap : m.indices.length < 2 ^ 32) :
    sectionLoop sn m mat =
      { vertices := (matchedTris m mat T).flatMap (triVerts m),
        indices := List.range (3 * (matchedTris m mat T).length),
        normals := (matchedTris m mat T).flatMap
          (fun i => [triTangentZ sn m i, triTangentZ sn m i, triTangentZ sn m i]),
        tangents := (matchedTris m mat T).flatMap
          (fun i => [triTangentX sn m i, triTangentX sn m i, triTangentX sn m i]) } := by
  rw [sectionLoop_eq_foldl sn m mat T h3 hT hcap, foldl_stepTri]
  simp only [emptySection, List.nil_append, List.length_nil, matchedTris]
  rw [List.range_eq_range' (3 * ((triIdx T).filter (fun i => tagAt m i = mat + 1)).length)]

lemma flatMap_threes_length {α β : Type} (L : List α) (g : α → List β)
    (hg : ∀ a, (g a).length = 3) :
    (L.flatMap g).length = 3 * L.length := by
  induction L with
  | nil => simp
  | cons a L ih =>
    rw [List.flatMap_cons, List.length_append, ih, hg a, List.length_cons]
    omega

lemma tagAt_mem_bounds (m : RawMesh) (M T : ℕ) (h3 : m.indices.length = 3 * T)
    (hidx : ∀ j ∈ m.indices, j < m.vertices.length)
    (htag : ∀ v ∈ m.vertices, 1 ≤ v.material ∧ v.material ≤ M) :
    ∀ i ∈ triIdx T, 1 ≤ tagAt m i ∧ tagAt m i ≤ M := by
  intro i hi
  have hx : ∃ k, k < T ∧ 3 * k = i := by
    simpa [triIdx, List.mem_map, List.mem_range] using hi
  obtain ⟨k, hk, rfl⟩ := hx
  have hi2 : 3 * k + 2 < m.indices.length := by omega
  unfold tagAt vertAt
  have hgetI : m.indices.getD (3 * k + 2) 0 = m.indices[3 * k + 2] := by
    simp [List.getD_eq_getElem?_getD, List.getElem?_eq_getElem hi2]
  rw [hgetI]
  have hjlt : m.indices[3 * k + 2] < m.vertices.length :=
    hidx _ (List.getElem_mem hi2)
  have hgetV : m.vertices.getD (m.indices[3 * k + 2]) default
      = m.vertices[m.indices[3 * k + 2]] := by
    simp [List.getD_eq_getElem?_getD, List.getElem?_eq_getElem hjlt]
  rw [hgetV]
  exact htag _ (List.getElem_mem hjlt)

lemma sum_filter_lengths (M : ℕ) (tag : ℕ → ℕ) :
    ∀ l : List ℕ, (∀ i ∈ l, 1 ≤ tag i ∧ tag i ≤ M) →
      Finset.sum (Finset.range M)
        (fun mat => (l.filter (fun i => tag i = mat + 1)).length) = l.length := by
  intro l
  induction l with
  | nil => intro _; simp
  | cons a l ih =>
    intro h
    have ha := h a (List.mem_cons_self a l)
    have hl : ∀ i ∈ l, 1 ≤ tag i ∧ tag i ≤ M :=
      fun i hi => h i (List.mem_cons_of_mem a hi)
    have key : ∀ mat : ℕ,
        ((a :: l).filter (fun i => tag i = mat + 1)).length
          = (l.filter (fun i => tag i = mat + 1)).length
              + (if mat = tag a - 1 then 1 else 0) := by
      intro mat
      by_cases hc : tag a = mat + 1
      · have hd : mat = tag a - 1 := by omega
        have hf : (a :: l).filter (fun i => tag i = mat + 1)
            = a :: l.filter (fun i => tag i = mat + 1) := by
          simp [List.filter_cons, hc]
        rw [hf, List.length_cons, if_pos hd]
      · have hd : ¬ mat = tag a - 1 := by omega
        have hf : (a :: l).filter (fun i => tag i = mat + 1)
            = l.filter (fun i => tag i = mat + 1) := by
          simp [List.filter_cons, hc]
        rw [hf, if_neg hd]
        omega
    rw [Finset.sum_congr rfl (fun mat _ => key mat), Finset.sum_add_distrib, ih hl]
    have hone : Finset.sum (Finset.range M)
        (fun mat => if mat = tag a - 1 then (1 : ℕ) else 0) = 1 := by
      rw [Finset.sum_ite_eq' (Finset.range M) (tag a - 1) (fun _ => 1)]
      rw [if_pos (Finset.mem_range.mpr (by omega))]
    rw [hone, List.length_cons]

/- ------------------------------------------------------------------ -/
/- Claim theorems: mesh partition (C3, C4, C7, C8, C10).               -/
/- ------------------------------------------------------------------ -/

/-- C3: for a decoded mesh of `T` triangles (a `3T`-entry `uint32` index
buffer, in-range indices) whose vertex tags all lie in `[1, M]`, the matched
triangle counts of the `M` sections sum to `T`, every section has exactly
`3 x (its triangle count)` vertices (no sharing), and every stored index is a
valid zero-based reference into the same section's vertex buffer.
(`1 ≤ T` excludes the empty index buffer, where the loop bound underflows;
see the C8 theorem.) -/
theorem partition_disjointness (sn : V3 → V3) (m : RawMesh) (T M : ℕ)
    (h3 : m.indices.length = 3 * T) (hT : 1 ≤ T) (hcap : m.indices.length < 2 ^ 32)
    (hidx : ∀ j ∈ m.indices, j < m.vertices.length)
    (htag : ∀ v ∈ m.vertices, 1 ≤ v.material ∧ v.material ≤ M) :
    Finset.sum (Finset.range M) (fun mat => (matchedTris m mat T).length) = T ∧
    ∀ mat : ℕ,
      (sectionLoop sn m mat).vertices.length = 3 * (matchedTris m mat T).length ∧
      (∀ j ∈ (sectionLoop sn m mat).indices,
          j < (sectionLoop sn m mat).vertices.length) := by
  constructor
  · have hb := tagAt_mem_bounds m M T h3 hidx htag
    have hsum := sum_filter_lengths M (tagAt m) (triIdx T) hb
    have hlen : (triIdx T).length = T := by simp [triIdx]
    simpa [matchedTris, hlen] using hsum
  · intro mat
    rw [sectionLoop_spec sn m mat T h3 hT hcap]
    have hv : ((matchedTris m mat T).flatMap (triVerts m)).length
        = 3 * (matchedTris m mat T).length :=
      flatMap_threes_length _ _ (fun i => by simp [triVerts])
    constructor
    · simpa using hv
    · intro j hj
      have hj2 : j < 3 * (matchedTris m mat T).length := by
        have := List.mem_range.mp (by simpa using hj)
        exact this
      simpa [hv] using hj2

theorem partition_disjointness_witness :
    Finset.sum (Finset.range 1) (fun mat => (matchedTris meshTriangle mat 1).length) = 1 ∧
    ∀ mat : ℕ,
      (sectionLoop (fun v => v) meshTriangle mat).vertices.length
          = 3 * (matchedTris meshTriangle mat 1).length ∧
      (∀ j ∈ (sectionLoop (fun v => v) meshTriangle mat).indices,
          j < (sectionLoop (fun v => v) meshTriangle mat).vertices.length) :=
  partition_disjointness (fun v => v) meshTriangle 1 1 (by decide) (by decide)
    (by decide) (by decide) (by decide)

/-- C4: every triangle included in a section is emitted with its three
vertices in reversed raw-triple order (third, second, first, positions scaled
by the world factor 100), one flat tangent `sn(v1 - v0)` and one flat normal
`sn((v1 - v0) x (v2 - v0))`, each duplicated across the three emitted
vertices (`sn` is the external `FVector::GetSafeNormal`). -/
theorem winding_and_flat_shading (sn : V3 → V3) (m : RawMesh) (mat T : ℕ)
    (h3 : m.indices.length = 3 * T) (hT : 1 ≤ T) (hcap : m.indices.length < 2 ^ 32) :
    (sectionLoop sn m mat).vertices = (matchedTris m mat T).flatMap (fun i =>
      [smul 100 (vertAt m (i + 2)).position,
       smul 100 (vertAt m (i + 1)).position,
       smul 100 (vertAt m i).position]) ∧
    (sectionLoop sn m mat).tangents = (matchedTris m mat T).flatMap (fun i =>
      [sn (vsub (vertAt m (i + 1)).position (vertAt m i).position),
       sn (vsub (vertAt m (i + 1)).position (vertAt m i).position),
       sn (vsub (vertAt m (i + 1)).position (vertAt m i).position)]) ∧
    (sectionLoop sn m mat).normals = (matchedTris m mat T).flatMap (fun i =>
      [sn (cross (vsub (vertAt m (i + 1)).position (vertAt m i).position)
                 (vsub (vertAt m (i + 2)).position (vertAt m i).position)),
       sn (cross (vsub (vertAt m (i + 1)).position (vertAt m i).position)
                 (vsub (vertAt m (i + 2)).position (vertAt m i).position)),
       sn (cross (vsub (vertAt m (i + 1)).position (vertAt m i).position)
                 (vsub (vertAt m (i + 2)).position (vertAt m i).position))]) := by
  rw [sectionLoop_spec sn m mat T h3 hT hcap]
  exact ⟨rfl, rfl, rfl⟩

theorem winding_and_flat_shading_witness :
    (sectionLoop (fun v => v) meshTriangle 0).vertices
        = (matchedTris meshTriangle 0 1).flatMap (fun i =>
      [smul 100 (vertAt meshTriangle (i + 2)).position,
       smul 100 (vertAt meshTriangle (i + 1)).position,
       smul 100 (vertAt meshTriangle i).position]) ∧
    (sectionLoop (fun v => v) meshTriangle 0).tangents
        = (matchedTris meshTriangle 0 1).flatMap (fun i =>
      [(fun v => v) (vsub (vertAt meshTriangle (i + 1)).position (vertAt meshTriangle i).position),
       (fun v => v) (vsub (vertAt meshTriangle (i + 1)).position (vertAt meshTriangle i).position),
       (fun v => v) (vsub (vertAt meshTriangle (i + 1)).position (vertAt meshTriangle i).position)]) ∧
    (sectionLoop (fun v => v) meshTriangle 0).normals
        = (matchedTris meshTriangle 0 1).flatMap (fun i =>
      [(fun v => v) (cross (vsub (vertAt meshTriangle (i + 1)).position (vertAt meshTriangle i).position)
                 (vsub (vertAt meshTriangle (i + 2)).position (vertAt meshTriangle i).position)),
       (fun v => v) (cross (vsub (vertAt meshTriangle (i + 1)).position (vertAt meshTriangle i).position)
                 (vsub (vertAt meshTriangle (i + 2)).position (vertAt meshTriangle i).position)),
       (fun v => v) (cross (vsub (vertAt meshTriangle (i + 1)).position (vertAt meshTriangle i).position)
                 (vsub (vertAt meshTriangle (i + 2)).position (vertAt meshTriangle i).position))]) :=
  winding_and_flat_shading (fun v => v) meshTriangle 0 1 (by decide) (by decide) (by decide)

/-- C7: the section for material id `mu` (section index `mu - 1`) contains
exactly the triangles whose deciding tag - the material of the third vertex of
the raw triple - equals `mu`, and a triangle tagged 0 (Air) belongs to no
section's matched set, since every section matches tag `mat + 1 ≥ 1`. -/
theorem triangle_material_selection (sn : V3 → V3) (m : RawMesh) (T mu : ℕ)
    (h3 : m.indices.length = 3 * T) (hT : 1 ≤ T) (hcap : m.indices.length < 2 ^ 32)
    (hmu : 1 ≤ mu) :
    (sectionLoop sn m (mu - 1)).vertices
        = ((triIdx T).filter (fun i => tagAt m i = mu)).flatMap (triVerts m) ∧
    ∀ i : ℕ, tagAt m i = 0 → ∀ mat : ℕ, i ∉ matchedTris m mat T := by
  constructor
  · rw [sectionLoop_spec sn m (mu - 1) T h3 hT hcap]
    have hm1 : (mu - 1) + 1 = mu := Nat.sub_add_cancel hmu
    simp [matchedTris, hm1]
  · intro i h0 mat hmem
    simp only [matchedTris, List.mem_filter] at hmem
    have h2 := hmem.2
    simp at h2
    omega

theorem triangle_material_selection_witness :
    (sectionLoop (fun v => v) meshTriangle (1 - 1)).vertices
        = ((triIdx 1).filter (fun i => tagAt meshTriangle i = 1)).flatMap (triVerts meshTriangle) ∧
    ∀ i : ℕ, tagAt meshTriangle i = 0 → ∀ mat : ℕ, i ∉ matchedTris meshTriangle mat 1 :=
  triangle_material_selection (fun v => v) meshTriangle 1 1 (by decide) (by decide)
    (by decide) (by decide)

/-- C8: the claim asserts the loop is safe for every well-formed mesh
including the empty one (zero indices).  But the loop bound
`getNoOfIndices() - 2` is computed in `uint32`: for the empty mesh it
underflows to `2 ^ 32 - 2`, the loop body runs, and its unconditional read of
index position `i + 2 = 2` is out of range for the empty index buffer. -/
theorem loop_bound_underflow :
    loopBound 0 = 2 ^ 32 - 2 ∧
      ¬ accessesInRange { vertices := [], indices := [] } := by
  constructor
  · norm_num [loopBound]
  · intro h
    have h0 := h 0 rfl (by decide)
    simp at h0

/-- C10: each section's index buffer is exactly `0, 1, ..., 3T_s - 1` (the
k-th index added refers to the k-th vertex added), and the included triangles
appear in the section in raw-mesh order (the section's vertex buffer is the
in-order concatenation over the matched triangles, three vertices each). -/
theorem section_indices_consecutive (sn : V3 → V3) (m : RawMesh) (mat T : ℕ)
    (h3 : m.indices.length = 3 * T) (hT : 1 ≤ T) (hcap : m.indices.length < 2 ^ 32) :
    (sectionLoop sn m mat).indices = List.range ((sectionLoop sn m mat).vertices.length) ∧
    (sectionLoop sn m mat).vertices = (matchedTris m mat T).flatMap (triVerts m) := by
  rw [sectionLoop_spec sn m mat T h3 hT hcap]
  have hv : ((matchedTris m mat T).flatMap (triVerts m)).length
      = 3 * (matchedTris m mat T).length :=
    flatMap_threes_length _ _ (fun i => by simp [triVerts])
  constructor
  · simp [hv]
  · rfl

theorem section_indices_consecutive_witness :
    (sectionLoop (fun v => v) meshTriangle 0).indices
        = List.range ((sectionLoop (fun v => v) meshTriangle 0).vertices.length) ∧
    (sectionLoop (fun v => v) meshTriangle 0).vertices
        = (matchedTris meshTriangle 0 1).flatMap (triVerts meshTriangle) :=
  section_indices_consecutive (fun v => v) meshTriangle 0 1 (by decide) (by decide) (by decide)
